import Mathlib

/-!
Verification of the beanstalk-rs work-queue broker core against its
natural-language specification.

The development shallowly embeds the Rust sources:

* `src/wire/decoder.rs` — the framing decoder (`Decoder::decode`).  Byte
  buffers (`bytes::BytesMut`) are `List Nat`; each byte is a `Nat` below 256.
  Operations that can panic in Rust (`split_to`, `advance`, indexing,
  checked subtraction) are modelled as `Option`-returning functions, `none`
  meaning a panic, so panic-freedom is provable rather than assumed.
  The command parser (`mod parser`, `TryFrom<&[u8]> for Command`) is not part
  of the sources being verified, so `decode` is parameterised over it.
* `src/wire/encoder.rs` — the response encoder.  YAML serialisation is done
  by the external `serde_yaml` crate, so the encoder is parameterised over
  serialisers `α → Option (List Nat)` (`none` meaning a serialisation error).
* `src/types/tube.rs` — `TubeState`, its five operations, and
  `Server::reserve_by_id`.  `BTreeMap` is modelled as a key-sorted
  association list, `BTreeSet` as a sorted list; `tokio::time::Instant` is an
  abstract `Nat` tick.
* `src/types/states.rs` — `JobState` and its stats serialisation.
-/

/-! ## Byte-buffer primitives (models of `bytes::BytesMut` operations) -/

/-- ASCII bytes of a string literal, used for the encoder's literal
responses. -/
def asciiBytes (s : String) : List Nat := s.toList.map Char.toNat

/-- The two-byte CRLF sequence. -/
def crlfBytes : List Nat := [13, 10]

/-- Model of `iter().tuple_windows().find_position(a == CR && b == LF)`:
index of the first adjacent pair `(13, 10)` in the list. -/
def findCRLF : List Nat → Option Nat
  | a :: b :: rest =>
    if a = 13 ∧ b = 10 then some 0 else (findCRLF (b :: rest)).map (· + 1)
  | _ => none

/-- Model of `BytesMut::split_to`: panics (`none`) unless `n ≤ buf.length`;
otherwise returns the split-off prefix and the remaining buffer. -/
def splitToChk (n : Nat) (buf : List Nat) : Option (List Nat × List Nat) :=
  if n ≤ buf.length then some (buf.take n, buf.drop n) else none

/-- Model of `BytesMut::advance`: panics (`none`) unless `n ≤ buf.length`. -/
def advanceChk (n : Nat) (buf : List Nat) : Option (List Nat) :=
  if n ≤ buf.length then some (buf.drop n) else none

/-! ## Wire protocol types (`src/wire/protocol.rs`, `src/wire/events.rs`) -/

/-- `Command` from `src/wire/protocol.rs`.  Numeric fields are `Nat`
(the decoder never does arithmetic on them); tube names are byte lists. -/
inductive Command where
  | put (pri delay ttr n_bytes : Nat)
  | reserve
  | reserveWithTimeout (timeout : Nat)
  | reserveJob (id : Nat)
  | release (id pri delay : Nat)
  | delete (id : Nat)
  | bury (id pri : Nat)
  | touch (id : Nat)
  | watch (tube : List Nat)
  | ignore (tube : List Nat)
  | peek (id : Nat)
  | peekReady
  | peekDelayed
  | peekBuried
  | kick (bound : Nat)
  | kickJob (id : Nat)
  | statsJob (id : Nat)
  | statsTube (tube : List Nat)
  | statsServer
  | listTubes
  | listTubeUsed
  | listTubesWatched
  | quit
  | pauseTube (tube : List Nat) (delay : Nat)
  | useTube (tube : List Nat)
deriving DecidableEq

/-- `Response` from `src/wire/protocol.rs`.  The four structured payload
types (`JobStats`, `ServerStats`, `TubeStatsResp`, `Vec<Vec<u8>>`) are type
parameters `J S T L` because their serialisation is performed by the
external `serde_yaml` crate. -/
inductive Response (J S T L : Type) where
  | outOfMemory
  | internalError
  | badFormat
  | unknownCommand
  | inserted (id : Nat)
  | buriedID (id : Nat)
  | expectedCRLF
  | jobTooBig
  | draining
  | usingTube (tube : List Nat)
  | deadlineSoon
  | timedOut
  | reserved (id : Nat)
  | found (id : Nat)
  | jobChunk (data : List Nat)
  | jobEnd
  | notFound
  | deleted
  | released
  | buried
  | touched
  | watching (count : Nat)
  | notIgnored
  | kickedCount (count : Nat)
  | kicked
  | okStatsJob (data : J)
  | okStats (data : S)
  | okStatsTube (data : T)
  | okListTubes (tubes : L)
  | paused
deriving DecidableEq

/-- `decoder::Error`: a protocol-level client error carrying the response to
transmit, or a stream-level IO error. -/
inductive DecoderError (J S T L : Type) where
  | client (resp : Response J S T L)
  | ioErr
deriving DecidableEq

/-- `BeanstalkClientEvent` from `src/wire/events.rs`. -/
inductive BeanstalkClientEvent where
  | command (c : Command)
  | putChunk (data : List Nat)
  | putEnd
  | discarded
deriving DecidableEq

/-! ## Decoder (`src/wire/decoder.rs`) -/

/-- The decoder state enum `Decoder` (default state is `ParseCommand`). -/
inductive Decoder where
  | parseCommand
  | parseJob (remaining : Nat)
  | discardToNewline
deriving DecidableEq

/-- Result of one `Decoder::decode` call: the decoder state after the call,
the buffer after the call, and the returned
`Result<Option<BeanstalkClientEvent>, Error>`. -/
structure DecodeStep (J S T L : Type) where
  state : Decoder
  buf : List Nat
  out : Except (DecoderError J S T L) (Option BeanstalkClientEvent)

/-- Successor decoder state after a command event is emitted: a `put`
command moves to `ParseJob { remaining = n_bytes }`, everything else stays
in `ParseCommand`. -/
def commandNextState : Command → Decoder
  | .put _ _ _ n_bytes => .parseJob n_bytes
  | _ => .parseCommand

/-- Model of `Decoder::decode` (`src/wire/decoder.rs` lines 36-159),
parameterised over the external command parser `tryParse`
(`cmd.as_ref().try_into()`).  The outer `Option` is `none` exactly when the
Rust code would panic; every panic site in the source is an explicit check
here. -/
def decode {J S T L : Type}
    (tryParse : List Nat → Except (DecoderError J S T L) Command) :
    Decoder → List Nat → Option (DecodeStep J S T L)
  | .parseCommand, src =>
    match findCRLF (src.take 224) with
    | some idx =>
      match splitToChk idx src with
      | none => none
      | some (cmd, rest) =>
        match advanceChk 2 rest with
        | none => none
        | some rest2 =>
          match tryParse cmd with
          | .error e => some ⟨.parseCommand, rest2, .error e⟩
          | .ok c =>
            some ⟨commandNextState c, rest2, .ok (some (.command c))⟩
    | none =>
      if 224 ≤ src.length then
        some ⟨.discardToNewline, src, .error (.client .badFormat)⟩
      else
        some ⟨.parseCommand, src, .ok none⟩
  | .parseJob 0, src =>
    if src.length < 2 then
      some ⟨.parseJob 0, src, .ok none⟩
    else
      match src[0]?, src[1]? with
      | some a, some b =>
        if a = 13 ∧ b = 10 then
          match advanceChk 2 src with
          | none => none
          | some rest => some ⟨.parseCommand, rest, .ok (some .putEnd)⟩
        else
          some ⟨.discardToNewline, src, .error (.client .expectedCRLF)⟩
      | _, _ => none
  | .parseJob (r + 1), src =>
    if src.length = 0 then
      some ⟨.parseJob (r + 1), src, .ok none⟩
    else
      let take_len := min (r + 1) src.length
      if take_len ≤ r + 1 then
        match splitToChk take_len src with
        | none => none
        | some (chunk, rest) =>
          some ⟨.parseJob (r + 1 - take_len), rest, .ok (some (.putChunk chunk))⟩
      else none
  | .discardToNewline, src =>
    if src.length = 0 then
      some ⟨.discardToNewline, src, .ok none⟩
    else
      match findCRLF src with
      | some idx =>
        match advanceChk (idx + 2) src with
        | none => none
        | some rest => some ⟨.parseCommand, rest, .ok (some .discarded)⟩
      | none =>
        match advanceChk (src.length - 1) src with
        | none => none
        | some rest => some ⟨.discardToNewline, rest, .ok (some .discarded)⟩

/-- Repeatedly calls `decode` starting in `ParseJob { remaining }`, the way
`FramedRead` drives the codec while a put payload is being received: when
`decode` yields `Ok(None)` the next arrival from the network is appended to
the buffer.  Collects the `PutChunk` payloads and stops at `PutEnd`,
returning the chunks, the leftover buffer and the unconsumed arrivals.
`none` is returned on error, panic, starvation, or fuel exhaustion. -/
def drainPut {J S T L : Type}
    (tryParse : List Nat → Except (DecoderError J S T L) Command) :
    Nat → Nat → List Nat → List (List Nat) →
    Option (List (List Nat) × List Nat × List (List Nat))
  | 0, _, _, _ => none
  | fuel + 1, r, buf, arrivals =>
    match decode tryParse (.parseJob r) buf with
    | some ⟨.parseJob r', buf', .ok (some (.putChunk c))⟩ =>
      (drainPut tryParse fuel r' buf' arrivals).map fun x =>
        (c :: x.1, x.2.1, x.2.2)
    | some ⟨_, buf', .ok (some .putEnd)⟩ => some ([], buf', arrivals)
    | some ⟨.parseJob r', buf', .ok none⟩ =>
      match arrivals with
      | [] => none
      | a :: rest => drainPut tryParse fuel r' (buf' ++ a) rest
    | _ => none

/-- A trivial command parser instance, used to witness theorems that are
generic over the external parser. -/
def trivialParse : List Nat → Except (DecoderError Unit Unit Unit Unit) Command :=
  fun _ => .ok .quit

/-! ## Encoder (`src/wire/encoder.rs`) -/

/-- Decimal ASCII bytes of a number, the model of `num.to_string()`. -/
def natToDecimalBytes (n : Nat) : List Nat :=
  (Nat.toDigits 10 n).map Char.toNat

/-- Result of one `Encoder::encode` call: the output buffer after the call
and whether a `serde_yaml` serialisation error (`Err(Serde(..))`) was
returned. -/
structure EncodeResult where
  dst : List Nat
  serdeErr : Bool
deriving DecidableEq

/-- Model of the `put_ok_and_data` helper (`src/wire/encoder.rs` lines
23-51): `yaml` is the result of `serde_yaml::to_string(&data)` (already a
byte list, `none` on serialisation failure).  On success appends
`OK <len>\r\n<yaml>\r\n`; on failure appends `INTERNAL_ERROR\r\n` and
reports the error. -/
def put_ok_and_data (yaml : Option (List Nat)) (dst : List Nat) : EncodeResult :=
  match yaml with
  | some data =>
    ⟨dst ++ asciiBytes "OK " ++ natToDecimalBytes data.length ++ crlfBytes
        ++ data ++ crlfBytes, false⟩
  | none => ⟨dst ++ asciiBytes "INTERNAL_ERROR\r\n", true⟩

/-- Model of the `put_str_and_u32` helper: appends `<str> <num>\r\n`. -/
def put_str_and_u32 (dst str : List Nat) (num : Nat) : List Nat :=
  dst ++ str ++ [32] ++ natToDecimalBytes num ++ crlfBytes

/-- Model of the `put_str_and_u64` helper: appends `<str> <num>\r\n`. -/
def put_str_and_u64 (dst str : List Nat) (num : Nat) : List Nat :=
  dst ++ str ++ [32] ++ natToDecimalBytes num ++ crlfBytes

/-- Model of `Encoder::encode` (`src/wire/encoder.rs` lines 16-128),
parameterised over the `serde_yaml::to_string` serialisers of the four
structured payload types. -/
def encode {J S T L : Type}
    (serJ : J → Option (List Nat)) (serS : S → Option (List Nat))
    (serT : T → Option (List Nat)) (serL : L → Option (List Nat))
    (item : Response J S T L) (dst : List Nat) : EncodeResult :=
  match item with
  | .badFormat => ⟨dst ++ asciiBytes "BAD_FORMAT\r\n", false⟩
  | .buried => ⟨dst ++ asciiBytes "BURIED\r\n", false⟩
  | .deadlineSoon => ⟨dst ++ asciiBytes "DEADLINE_SOON\r\n", false⟩
  | .deleted => ⟨dst ++ asciiBytes "DELETED\r\n", false⟩
  | .draining => ⟨dst ++ asciiBytes "DRAINING\r\n", false⟩
  | .expectedCRLF => ⟨dst ++ asciiBytes "EXPECTED_CRLF\r\n", false⟩
  | .internalError => ⟨dst ++ asciiBytes "INTERNAL_ERROR\r\n", false⟩
  | .jobTooBig => ⟨dst ++ asciiBytes "JOB_TOO_BIG\r\n", false⟩
  | .kicked => ⟨dst ++ asciiBytes "KICKED\r\n", false⟩
  | .notFound => ⟨dst ++ asciiBytes "NOT_FOUND\r\n", false⟩
  | .notIgnored => ⟨dst ++ asciiBytes "NOT_IGNORED\r\n", false⟩
  | .outOfMemory => ⟨dst ++ asciiBytes "OUT_OF_MEMORY\r\n", false⟩
  | .paused => ⟨dst ++ asciiBytes "PAUSED\r\n", false⟩
  | .released => ⟨dst ++ asciiBytes "RELEASED\r\n", false⟩
  | .timedOut => ⟨dst ++ asciiBytes "TIMED_OUT\r\n", false⟩
  | .touched => ⟨dst ++ asciiBytes "TOUCHED\r\n", false⟩
  | .unknownCommand => ⟨dst ++ asciiBytes "UNKNOWN_COMMAND\r\n", false⟩
  | .buriedID id => ⟨put_str_and_u64 dst (asciiBytes "BURIED") id, false⟩
  | .inserted id => ⟨put_str_and_u64 dst (asciiBytes "INSERTED") id, false⟩
  | .kickedCount count => ⟨put_str_and_u64 dst (asciiBytes "KICKED") count, false⟩
  | .watching count => ⟨put_str_and_u32 dst (asciiBytes "WATCHING") count, false⟩
  | .okStatsJob data => put_ok_and_data (serJ data) dst
  | .okStats data => put_ok_and_data (serS data) dst
  | .okListTubes tubes => put_ok_and_data (serL tubes) dst
  | .okStatsTube data => put_ok_and_data (serT data) dst
  | .usingTube tube => ⟨dst ++ asciiBytes "USING " ++ tube ++ crlfBytes, false⟩
  | .reserved id => ⟨put_str_and_u64 dst (asciiBytes "RESERVED") id, false⟩
  | .found id => ⟨put_str_and_u64 dst (asciiBytes "FOUND") id, false⟩
  | .jobChunk data => ⟨dst ++ data, false⟩
  | .jobEnd => ⟨dst ++ crlfBytes, false⟩

/-! ## Job states (`src/types/states.rs`) -/

/-- `JobState` from `src/types/states.rs`.  `tokio::time::Instant` values
are abstract `Nat` ticks; positions are the `ReadyPos`/`BuriedPos`
counters. -/
inductive JobState where
  | ready (pos : Nat)
  | delayed (untilTick : Nat)
  | reserved (deadline : Nat)
  | buried (pos : Nat)
deriving DecidableEq

/-- The `impl Serialize for JobState`: `serializer.serialize_str(..)` of the
matched literal, so the whole serialisation is captured by the string
chosen by the `match`. -/
def JobState.serializeStr : JobState → String
  | .ready _ => "ready"
  | .delayed _ => "delayed"
  | .reserved _ => "reserved"
  | .buried _ => "buried"

/-! ## Ordered-collection models for `BTreeMap` / `BTreeSet` -/

/-- Model of `BTreeMap<Nat, Nat>::insert` on a key-sorted association list:
returns the previous value under the key (if any) together with the new
list, keeping the list sorted by key. -/
def mapInsert (k v : Nat) : List (Nat × Nat) → Option Nat × List (Nat × Nat)
  | [] => (none, [(k, v)])
  | (k', v') :: rest =>
    if k < k' then (none, (k, v) :: (k', v') :: rest)
    else if k = k' then (some v', (k, v) :: rest)
    else
      let r := mapInsert k v rest
      (r.1, (k', v') :: r.2)

/-- Model of `BTreeMap<Nat, Nat>::remove`: returns the removed value (if
the key was present) together with the new list. -/
def mapRemove (k : Nat) : List (Nat × Nat) → Option Nat × List (Nat × Nat)
  | [] => (none, [])
  | (k', v') :: rest =>
    if k = k' then (some v', rest)
    else
      let r := mapRemove k rest
      (r.1, (k', v') :: r.2)

/-- Model of `BTreeSet<(Instant, JobId)>::insert` on a lexicographically
sorted list of pairs: returns whether the element was newly inserted. -/
def setInsert (x : Nat × Nat) : List (Nat × Nat) → Bool × List (Nat × Nat)
  | [] => (true, [x])
  | y :: rest =>
    if x = y then (false, y :: rest)
    else if x.1 < y.1 ∨ (x.1 = y.1 ∧ x.2 < y.2) then (true, x :: y :: rest)
    else
      let r := setInsert x rest
      (r.1, y :: r.2)

/-- Generic association-list lookup, the model of `BTreeMap::get` for the
`Server` maps (keys there are job ids or tube names). -/
def alLookup {κ ν : Type} [DecidableEq κ] (k : κ) : List (κ × ν) → Option ν
  | [] => none
  | (k', v) :: rest => if k = k' then some v else alLookup k rest

/-- Replaces the value under an existing key, the model of mutation through
`BTreeMap::get_mut`. -/
def alUpdate {κ ν : Type} [DecidableEq κ] (k : κ) (v : ν) :
    List (κ × ν) → List (κ × ν)
  | [] => []
  | (k', v') :: rest =>
    if k = k' then (k, v) :: rest else (k', v') :: alUpdate k v rest

/-! ## Tubes (`src/types/tube.rs`) -/

/-- `TubeStats` from `src/types/tube.rs` (all counters; `u64`/`u32` values
are `Nat` — no field ever overflows in the verified operations because each
counter only moves by one at a time). -/
structure TubeStats where
  current_jobs_urgent : Nat
  current_jobs_ready : Nat
  current_jobs_reserved : Nat
  current_jobs_delayed : Nat
  current_jobs_buried : Nat
  total_jobs : Nat
  current_using : Nat
  current_waiting : Nat
  current_watching : Nat
  pause : Nat
  cmd_delete : Nat
  cmd_pause_tube : Nat
deriving DecidableEq

/-- The all-zero `TubeStats`. -/
def TubeStats.zero : TubeStats := ⟨0, 0, 0, 0, 0, 0, 0, 0, 0, 0, 0, 0⟩

/-- `TubeState` from `src/types/tube.rs` lines 84-93.  The `buried` and
`ready` maps are position-to-job-id association lists sorted by position;
`delayed` is the sorted `BTreeSet` of `(ready tick, job id)` pairs. -/
structure TubeState where
  buried : List (Nat × Nat)
  buried_sn : Nat
  ready : List (Nat × Nat)
  ready_sn : Nat
  delayed : List (Nat × Nat)
  pause_until : Option Nat
  stats : TubeStats
deriving DecidableEq

/-- The empty tube. -/
def TubeState.empty : TubeState := ⟨[], 0, [], 0, [], none, TubeStats.zero⟩

/-- `TubeState::put_ready` (lines 100-111): inserts the job at position
`ready_sn`, increments `ready_sn` and the ready counter, and returns the
position.  `none` models the `assert!(insert(..).is_none())` panic. -/
def TubeState.put_ready (s : TubeState) (job_id : Nat) : Option (Nat × TubeState) :=
  let rp := s.ready_sn
  let r := mapInsert rp job_id s.ready
  match r.1 with
  | some _ => none
  | none =>
    some (rp,
      { s with
        ready := r.2
        ready_sn := rp + 1
        stats := { s.stats with
          current_jobs_ready := s.stats.current_jobs_ready + 1 } })

/-- `TubeState::put_buried` (lines 113-123): appends the job at position
`buried_sn` and increments the buried counter. -/
def TubeState.put_buried (s : TubeState) (job_id : Nat) : Option (Nat × TubeState) :=
  let bp := s.buried_sn
  let r := mapInsert bp job_id s.buried
  match r.1 with
  | some _ => none
  | none =>
    some (bp,
      { s with
        buried := r.2
        buried_sn := bp + 1
        stats := { s.stats with
          current_jobs_buried := s.stats.current_jobs_buried + 1 } })

/-- `TubeState::put_delayed` (lines 125-130): inserts `(until, job_id)` into
the delayed set; `none` models the `assert!` panic when the pair was already
present. -/
def TubeState.put_delayed (s : TubeState) (job_id untilTick : Nat) : Option TubeState :=
  let r := setInsert (untilTick, job_id) s.delayed
  if r.1 then
    some { s with
      delayed := r.2
      stats := { s.stats with
        current_jobs_delayed := s.stats.current_jobs_delayed + 1 } }
  else none

/-- `TubeState::take_buried` (lines 132-137): removes the entry at `pos`;
`none` models the `.unwrap()` panic when no entry is at `pos`. -/
def TubeState.take_buried (s : TubeState) (pos : Nat) : Option TubeState :=
  let r := mapRemove pos s.buried
  match r.1 with
  | none => none
  | some _ =>
    some { s with
      buried := r.2
      stats := { s.stats with
        current_jobs_buried := s.stats.current_jobs_buried - 1 } }

/-- `TubeState::take_ready` (lines 139-145): removes the entry at `pos`;
`none` models the `.unwrap()` panic when no entry is at `pos`. -/
def TubeState.take_ready (s : TubeState) (pos : Nat) : Option TubeState :=
  let r := mapRemove pos s.ready
  match r.1 with
  | none => none
  | some _ =>
    some { s with
      ready := r.2
      stats := { s.stats with
        current_jobs_ready := s.stats.current_jobs_ready - 1 } }

/-- One of the five `TubeState` operations, with its arguments. -/
inductive TubeOp where
  | put_ready (job_id : Nat)
  | put_buried (job_id : Nat)
  | put_delayed (job_id untilTick : Nat)
  | take_buried (pos : Nat)
  | take_ready (pos : Nat)
deriving DecidableEq

/-- Applies one operation to a tube (`none` = the operation panicked). -/
def TubeState.step (s : TubeState) : TubeOp → Option TubeState
  | .put_ready j => (s.put_ready j).map Prod.snd
  | .put_buried j => (s.put_buried j).map Prod.snd
  | .put_delayed j u => s.put_delayed j u
  | .take_buried p => s.take_buried p
  | .take_ready p => s.take_ready p

/-- Applies a sequence of operations to a tube, stopping at a panic. -/
def runOps (s : TubeState) : List TubeOp → Option TubeState
  | [] => some s
  | op :: rest =>
    match s.step op with
    | none => none
    | some s' => runOps s' rest

/-! ## Server (`src/types/tube.rs` lines 148-215) -/

/-- `Job` from `src/types/job.rs` (the `data` payload is a byte list;
`created` is an abstract tick). -/
structure Job where
  pri : Nat
  data : List Nat
  state : JobState
  created : Nat
  ttr : Nat
  reserves : Nat
  timeouts : Nat
  releases : Nat
  buries : Nat
  kicks : Nat
deriving DecidableEq

/-- `Server` from `src/types/tube.rs`: jobs indexed by id, mapping to the
owning queue name and the job; tubes indexed by name. -/
structure Server where
  jobs : List (Nat × (List Nat × Job))
  queues : List (List Nat × TubeState)
  is_draining : Bool
deriving DecidableEq

/-- `Server::reserve_by_id` (lines 156-171).  Returns `none` when the code
panics (one of the two `.unwrap()` sites), otherwise the Rust return value
together with the updated server.  Note the source returns the job without
modifying `job.state`. -/
def Server.reserve_by_id (srv : Server) (id : Nat) : Option (Option Job × Server) :=
  match alLookup id srv.jobs with
  | none => some (none, srv)
  | some (qn, job) =>
    match job.state with
    | .ready pos =>
      match alLookup qn srv.queues with
      | none => none
      | some queue =>
        match queue.take_ready pos with
        | none => none
        | some q' => some (some job, { srv with queues := alUpdate qn q' srv.queues })
    | _ => some (none, srv)

/-! ## Spec-side definitions and concrete instances used by the claims -/

/-- Strict lexicographic sortedness of a list of pairs, as a boolean. -/
def isSortedLex : List (Nat × Nat) → Bool
  | [] => true
  | [_] => true
  | a :: b :: rest =>
    (decide (a.1 < b.1) || (decide (a.1 = b.1) && decide (a.2 < b.2)))
      && isSortedLex (b :: rest)

/-- Strictly ascending keys of an association list, as a boolean. -/
def isSortedKeys : List (Nat × Nat) → Bool
  | [] => true
  | [_] => true
  | a :: b :: rest => decide (a.1 < b.1) && isSortedKeys (b :: rest)

/-- Spec-side definition, following the spec's words for claim C1: the
enumeration of the tube's ready set (in map order) is sorted by
`(priority ascending, insertion-sequence ascending)`, where `pri` gives
each job's priority and the insertion sequence of an entry is its
`ReadyPos`. -/
def readyOrderedByPriSeq (pri : Nat → Nat) (s : TubeState) : Bool :=
  isSortedLex (s.ready.map fun e => (pri e.2, e.1))

/-- Job priorities used in the C1 counterexample: job 1 has priority 10,
job 2 has priority 5. -/
def priCE : Nat → Nat := fun j => if j = 1 then 10 else 5

/-- An example job in the ready state at position 0, priority 5. -/
def jobCE : Job := ⟨5, [97, 98, 99], .ready 0, 0, 60, 0, 0, 0, 0, 0⟩

/-- A tube holding exactly the one ready job `jobCE` at position 0. -/
def tubeCE : TubeState :=
  ⟨[], 0, [(0, 1)], 1, [], none,
    ⟨0, 1, 0, 0, 0, 0, 0, 0, 0, 0, 0, 0⟩⟩

/-- A server holding the single ready job `jobCE` (id 1) on tube `t`. -/
def serverCE : Server :=
  ⟨[(1, ([116], jobCE))], [([116], tubeCE)], false⟩

/-- The tube `tubeCE` after its only ready job has been taken. -/
def tubeAfterCE : TubeState :=
  ⟨[], 0, [], 1, [], none, ⟨0, 0, 0, 0, 0, 0, 0, 0, 0, 0, 0, 0⟩⟩

/-- The server `serverCE` after `reserve_by_id 1`: the job is gone from the
tube's ready set but its stored state is still `Ready { pos: 0 }`. -/
def serverCE2 : Server :=
  ⟨[(1, ([116], jobCE))], [([116], tubeAfterCE)], false⟩

/-- Concrete tube used to witness the C1 ordering theorem: the result of
`put_ready 7` on the empty tube. -/
def tubeW1 : TubeState :=
  ⟨[], 0, [(0, 7)], 1, [], none, ⟨0, 1, 0, 0, 0, 0, 0, 0, 0, 0, 0, 0⟩⟩

/-- Concrete tube used to witness the C9 counter theorem: the result of
`put_ready 1; put_delayed 2 5; put_buried 3; take_ready 0` on the empty
tube. -/
def tubeW9 : TubeState :=
  ⟨[(0, 3)], 1, [], 1, [(5, 2)], none, ⟨0, 0, 0, 1, 1, 0, 0, 0, 0, 0, 0, 0⟩⟩

/-! ## Byte-level lemmas -/

/-- When `findCRLF` reports an index, the pair fits inside the list. -/
theorem findCRLF_le {l : List Nat} {idx : Nat} (h : findCRLF l = some idx) :
    idx + 2 ≤ l.length := by
  induction l generalizing idx with
  | nil => simp [findCRLF] at h
  | cons a rest ih =>
    cases rest with
    | nil => simp [findCRLF] at h
    | cons b rest' =>
      rw [findCRLF] at h
      split at h
      · simp only [Option.some.injEq] at h
        subst h
        simp
      · simp only [Option.map_eq_some'] at h
        obtain ⟨j, hj, hidx⟩ := h
        subst hidx
        have := ih hj
        simp only [List.length_cons] at this ⊢
        omega

/-! ## Behaviour of each `decode` arm -/

/-- `ParseCommand` arm when a CRLF is found within the 224-byte window. -/
theorem decode_parseCommand_found {J S T L : Type}
    (tryParse : List Nat → Except (DecoderError J S T L) Command)
    {buf : List Nat} {idx : Nat} (h : findCRLF (buf.take 224) = some idx) :
    decode tryParse .parseCommand buf =
      (match tryParse (buf.take idx) with
      | .error e => some ⟨.parseCommand, buf.drop (idx + 2), .error e⟩
      | .ok c =>
        some ⟨commandNextState c, buf.drop (idx + 2), .ok (some (.command c))⟩) := by
  have hle : idx + 2 ≤ buf.length := by
    have h1 := findCRLF_le h
    have h2 : (buf.take 224).length ≤ buf.length := by
      simp [List.length_take]
    omega
  rw [decode, h]
  dsimp only
  rw [splitToChk, if_pos (show idx ≤ buf.length by omega)]
  dsimp only
  have hdrop : 2 ≤ (buf.drop idx).length := by
    simp [List.length_drop]; omega
  rw [advanceChk, if_pos hdrop]
  dsimp only
  rw [List.drop_drop]

/-- `ParseCommand` arm with no CRLF in the window and 224 or more buffered
bytes: `BAD_FORMAT`. -/
theorem decode_parseCommand_long {J S T L : Type}
    (tryParse : List Nat → Except (DecoderError J S T L) Command)
    {buf : List Nat} (h224 : 224 ≤ buf.length)
    (h : findCRLF (buf.take 224) = none) :
    decode tryParse .parseCommand buf =
      some ⟨.discardToNewline, buf, .error (.client .badFormat)⟩ := by
  rw [decode, h, if_pos h224]

/-- `ParseCommand` arm with no CRLF and fewer than 224 buffered bytes:
wait for more input. -/
theorem decode_parseCommand_short {J S T L : Type}
    (tryParse : List Nat → Except (DecoderError J S T L) Command)
    {buf : List Nat} (h224 : buf.length < 224)
    (h : findCRLF (buf.take 224) = none) :
    decode tryParse .parseCommand buf = some ⟨.parseCommand, buf, .ok none⟩ := by
  rw [decode, h, if_neg (by omega)]

/-- `ParseJob { remaining: 0 }` arm with fewer than two buffered bytes. -/
theorem decode_parseJob0_short {J S T L : Type}
    (tryParse : List Nat → Except (DecoderError J S T L) Command)
    {buf : List Nat} (h : buf.length < 2) :
    decode tryParse (.parseJob 0) buf = some ⟨.parseJob 0, buf, .ok none⟩ := by
  rw [decode, if_pos h]

/-- `ParseJob { remaining: 0 }` arm when the next two bytes are CRLF. -/
theorem decode_parseJob0_crlf {J S T L : Type}
    (tryParse : List Nat → Except (DecoderError J S T L) Command)
    (rest : List Nat) :
    decode tryParse (.parseJob 0) (13 :: 10 :: rest) =
      some ⟨.parseCommand, rest, .ok (some .putEnd)⟩ := by
  rw [decode]
  simp [advanceChk]

/-- `ParseJob { remaining: 0 }` arm when the next two bytes are not CRLF. -/
theorem decode_parseJob0_other {J S T L : Type}
    (tryParse : List Nat → Except (DecoderError J S T L) Command)
    (a b : Nat) (rest : List Nat) (hne : ¬(a = 13 ∧ b = 10)) :
    decode tryParse (.parseJob 0) (a :: b :: rest) =
      some ⟨.discardToNewline, a :: b :: rest, .error (.client .expectedCRLF)⟩ := by
  rw [decode]
  simp only [List.length_cons]
  rw [if_neg (by omega)]
  simp [hne]

/-- `ParseJob { remaining > 0 }` arm with an empty buffer. -/
theorem decode_parseJobPos_empty {J S T L : Type}
    (tryParse : List Nat → Except (DecoderError J S T L) Command)
    (r : Nat) :
    decode tryParse (.parseJob (r + 1)) [] =
      some ⟨.parseJob (r + 1), [], .ok none⟩ := by
  rw [decode]
  simp

/-- `ParseJob { remaining > 0 }` arm with a non-empty buffer: emit a
chunk of `min remaining buf.length` bytes. -/
theorem decode_parseJobPos_chunk {J S T L : Type}
    (tryParse : List Nat → Except (DecoderError J S T L) Command)
    (r : Nat) {buf : List Nat} (hb : buf ≠ []) :
    decode tryParse (.parseJob (r + 1)) buf =
      some ⟨.parseJob (r + 1 - min (r + 1) buf.length),
        buf.drop (min (r + 1) buf.length),
        .ok (some (.putChunk (buf.take (min (r + 1) buf.length))))⟩ := by
  rw [decode]
  rw [if_neg (by simp [hb])]
  simp only
  rw [if_pos (Nat.min_le_left _ _)]
  rw [splitToChk, if_pos (Nat.min_le_right _ _)]

/-- `DiscardToNewline` arm with an empty buffer. -/
theorem decode_discard_empty {J S T L : Type}
    (tryParse : List Nat → Except (DecoderError J S T L) Command) :
    decode tryParse .discardToNewline [] =
      some ⟨.discardToNewline, [], .ok none⟩ := by
  rw [decode]
  simp

/-- `DiscardToNewline` arm when the buffer contains a CRLF: consume through
it and return to `ParseCommand`. -/
theorem decode_discard_found {J S T L : Type}
    (tryParse : List Nat → Except (DecoderError J S T L) Command)
    {buf : List Nat} {idx : Nat} (h : findCRLF buf = some idx) :
    decode tryParse .discardToNewline buf =
      some ⟨.parseCommand, buf.drop (idx + 2), .ok (some .discarded)⟩ := by
  have hle := findCRLF_le h
  have hb : buf.length ≠ 0 := by omega
  rw [decode, if_neg hb, h]
  dsimp only
  rw [advanceChk, if_pos hle]

/-- `DiscardToNewline` arm with no CRLF: keep only the final byte. -/
theorem decode_discard_none {J S T L : Type}
    (tryParse : List Nat → Except (DecoderError J S T L) Command)
    {buf : List Nat} (hb : buf ≠ []) (h : findCRLF buf = none) :
    decode tryParse .discardToNewline buf =
      some ⟨.discardToNewline, buf.drop (buf.length - 1), .ok (some .discarded)⟩ := by
  have hb' : buf.length ≠ 0 := by simpa using List.length_pos.mpr hb |>.ne'
  rw [decode, if_neg hb', h]
  rw [advanceChk, if_pos (by omega)]

/-! ## Claim C10: decode is total and panic-free -/

/-- Claim C10: for every decoder state and buffer, every panic-guarded
operation inside `Decoder::decode` (split_to, advance, indexing, checked
subtraction) has its precondition satisfied, so `decode` always returns a
value (`isSome`) instead of panicking. -/
theorem c10_decode_no_panic (J S T L : Type)
    (tryParse : List Nat → Except (DecoderError J S T L) Command)
    (st : Decoder) (buf : List Nat) :
    (decode tryParse st buf).isSome = true := by
  cases st with
  | parseCommand =>
    cases h : findCRLF (buf.take 224) with
    | some idx =>
      rw [decode_parseCommand_found tryParse h]
      cases tryParse (buf.take idx) <;> simp
    | none =>
      rcases Nat.lt_or_ge buf.length 224 with hlt | hge
      · rw [decode_parseCommand_short tryParse hlt h]; simp
      · rw [decode_parseCommand_long tryParse hge h]; simp
  | parseJob r =>
    cases r with
    | zero =>
      rcases Nat.lt_or_ge buf.length 2 with hlt | hge
      · rw [decode_parseJob0_short tryParse hlt]; simp
      · match buf, hge with
        | a :: b :: rest, _ =>
          by_cases hc : a = 13 ∧ b = 10
          · obtain ⟨ha, hbb⟩ := hc
            subst ha; subst hbb
            rw [decode_parseJob0_crlf tryParse rest]; simp
          · rw [decode_parseJob0_other tryParse a b rest hc]; simp
    | succ r' =>
      cases buf with
      | nil => rw [decode_parseJobPos_empty tryParse r']; simp
      | cons x xs =>
        rw [decode_parseJobPos_chunk tryParse r' (List.cons_ne_nil x xs)]
        simp
  | discardToNewline =>
    cases buf with
    | nil => rw [decode_discard_empty tryParse]; simp
    | cons x xs =>
      cases h : findCRLF (x :: xs) with
      | some idx => rw [decode_discard_found tryParse h]; simp
      | none =>
        rw [decode_discard_none tryParse (List.cons_ne_nil x xs) h]; simp

/-! ## Claim C3: the 224-byte command-line boundary -/

/-- Claim C3: in `ParseCommand`, a command line of exactly 224 bytes
including the CRLF (first CRLF pair at window indices 222/223) is accepted:
the 222-byte prefix is handed to the command parser and, when it parses, a
`Command` event is emitted with exactly 224 bytes consumed.  With 224 or
more buffered bytes and no CRLF among the first 224 bytes, decode returns
the `BAD_FORMAT` client error and moves to `DiscardToNewline`.  With fewer
than 224 buffered bytes and no CRLF, nothing is consumed and no item is
returned. -/
theorem c3_command_line_boundary (J S T L : Type)
    (tryParse : List Nat → Except (DecoderError J S T L) Command) :
    (∀ (buf : List Nat) (c : Command),
      findCRLF (buf.take 224) = some 222 →
      tryParse (buf.take 222) = .ok c →
      decode tryParse .parseCommand buf =
        some ⟨commandNextState c, buf.drop 224, .ok (some (.command c))⟩) ∧
    (∀ buf : List Nat, 224 ≤ buf.length →
      findCRLF (buf.take 224) = none →
      decode tryParse .parseCommand buf =
        some ⟨.discardToNewline, buf, .error (.client .badFormat)⟩) ∧
    (∀ buf : List Nat, buf.length < 224 →
      findCRLF (buf.take 224) = none →
      decode tryParse .parseCommand buf =
        some ⟨.parseCommand, buf, .ok none⟩) := by
  refine ⟨fun buf c hfind hparse => ?_, fun buf h224 hfind => ?_,
    fun buf h224 hfind => ?_⟩
  · rw [decode_parseCommand_found tryParse hfind, hparse]
  · exact decode_parseCommand_long tryParse h224 hfind
  · exact decode_parseCommand_short tryParse h224 hfind

set_option maxRecDepth 100000 in
/-- Witness for C3 at concrete inputs: a 224-byte line `aaa...a\r\n` is
accepted as a command consuming the whole buffer, 225 junk bytes give
`BAD_FORMAT`, and a short CRLF-free buffer gives no item. -/
theorem c3_command_line_boundary_witness :
    decode trivialParse .parseCommand (List.replicate 222 97 ++ [13, 10]) =
      some ⟨commandNextState .quit,
        (List.replicate 222 97 ++ [13, 10]).drop 224,
        .ok (some (.command .quit))⟩ ∧
    decode trivialParse .parseCommand (List.replicate 225 106) =
      some ⟨.discardToNewline, List.replicate 225 106,
        .error (.client .badFormat)⟩ ∧
    decode trivialParse .parseCommand [104, 105] =
      some ⟨.parseCommand, [104, 105], .ok none⟩ := by
  obtain ⟨h1, h2, h3⟩ := c3_command_line_boundary Unit Unit Unit Unit trivialParse
  refine ⟨h1 _ Command.quit (by rfl) (by rfl), h2 _ (by simp) (by rfl),
    h3 _ (by simp) (by rfl)⟩

/-! ## Claim C4: CRLF check after a put payload -/

/-- Claim C4: in `ParseJob { remaining: 0 }` with at least two buffered
bytes, decode emits `PutEnd`, consumes the two bytes and returns to
`ParseCommand` exactly when they are CRLF; otherwise it returns the
`EXPECTED_CRLF` client error and moves to `DiscardToNewline` consuming
nothing; with fewer than two buffered bytes it consumes nothing and returns
no item. -/
theorem c4_put_end_crlf (J S T L : Type)
    (tryParse : List Nat → Except (DecoderError J S T L) Command) :
    (∀ rest : List Nat,
      decode tryParse (.parseJob 0) (13 :: 10 :: rest) =
        some ⟨.parseCommand, rest, .ok (some .putEnd)⟩) ∧
    (∀ (a b : Nat) (rest : List Nat), ¬(a = 13 ∧ b = 10) →
      decode tryParse (.parseJob 0) (a :: b :: rest) =
        some ⟨.discardToNewline, a :: b :: rest,
          .error (.client .expectedCRLF)⟩) ∧
    (∀ buf : List Nat, buf.length < 2 →
      decode tryParse (.parseJob 0) buf =
        some ⟨.parseJob 0, buf, .ok none⟩) := by
  exact ⟨decode_parseJob0_crlf tryParse,
    decode_parseJob0_other tryParse,
    fun buf h => decode_parseJob0_short tryParse h⟩

/-- Witness for C4 at concrete inputs. -/
theorem c4_put_end_crlf_witness :
    decode trivialParse (.parseJob 0) [13, 10, 65] =
      some ⟨.parseCommand, [65], .ok (some .putEnd)⟩ ∧
    decode trivialParse (.parseJob 0) [88, 89, 90] =
      some ⟨.discardToNewline, [88, 89, 90],
        .error (.client .expectedCRLF)⟩ ∧
    decode trivialParse (.parseJob 0) [13] =
      some ⟨.parseJob 0, [13], .ok none⟩ := by
  obtain ⟨h1, h2, h3⟩ := c4_put_end_crlf Unit Unit Unit Unit trivialParse
  exact ⟨h1 [65], h2 88 89 [90] (by simp), h3 [13] (by simp)⟩

/-! ## Claim C6: DiscardToNewline recovery -/

/-- Claim C6: in `DiscardToNewline` with a non-empty buffer, when the first
CRLF pair ends at index `idx + 1` exactly the first `idx + 2` bytes are
consumed, a `Discarded` marker is emitted and the state returns to
`ParseCommand`; with no CRLF in the buffer all but the final byte are
dropped (the final byte may be a carriage return) and the state remains
`DiscardToNewline`. -/
theorem c6_discard_to_newline (J S T L : Type)
    (tryParse : List Nat → Except (DecoderError J S T L) Command) :
    (∀ (buf : List Nat) (idx : Nat), findCRLF buf = some idx →
      decode tryParse .discardToNewline buf =
        some ⟨.parseCommand, buf.drop (idx + 2), .ok (some .discarded)⟩) ∧
    (∀ buf : List Nat, buf ≠ [] → findCRLF buf = none →
      decode tryParse .discardToNewline buf =
        some ⟨.discardToNewline, buf.drop (buf.length - 1),
          .ok (some .discarded)⟩) := by
  exact ⟨fun buf idx h => decode_discard_found tryParse h,
    fun buf hb h => decode_discard_none tryParse hb h⟩

/-- Witness for C6 at concrete inputs: `junk\r\nrest` consumes through the
CRLF, while a CRLF-free buffer keeps only its final byte. -/
theorem c6_discard_to_newline_witness :
    decode trivialParse .discardToNewline [106, 107, 13, 10, 65, 66] =
      some ⟨.parseCommand, [65, 66], .ok (some .discarded)⟩ ∧
    decode trivialParse .discardToNewline [106, 107, 13] =
      some ⟨.discardToNewline, [13], .ok (some .discarded)⟩ := by
  obtain ⟨h1, h2⟩ := c6_discard_to_newline Unit Unit Unit Unit trivialParse
  refine ⟨?_, ?_⟩
  · have := h1 [106, 107, 13, 10, 65, 66] 2 (by rfl)
    simpa using this
  · have := h2 [106, 107, 13] (by simp) (by rfl)
    simpa using this

/-! ## Claim C5: put payload chunking -/

/-- Driving the codec from `ParseJob { remaining = r }` over any split of
the incoming stream into arrivals reaches `PutEnd` with the concatenation
of the emitted `PutChunk` payloads equal to the first `r` bytes of the
stream, provided the stream holds `r` payload bytes followed by CRLF. -/
theorem drainPut_spec {J S T L : Type}
    (tryParse : List Nat → Except (DecoderError J S T L) Command)
    (fuel : Nat) :
    ∀ (r : Nat) (buf : List Nat) (arrivals : List (List Nat)),
    r + 2 ≤ (buf ++ arrivals.flatten).length →
    ((buf ++ arrivals.flatten).drop r).take 2 = [13, 10] →
    arrivals.length + r + 2 ≤ fuel →
    ∃ cs b a, drainPut tryParse fuel r buf arrivals = some (cs, b, a) ∧
      cs.flatten = (buf ++ arrivals.flatten).take r := by
  induction fuel with
  | zero =>
    intro r buf arrivals _ _ hfuel
    omega
  | succ fuel ih =>
    intro r buf arrivals hlen hcrlf hfuel
    cases r with
    | zero =>
      rcases Nat.lt_or_ge buf.length 2 with hb2 | hb2
      · cases arrivals with
        | nil =>
          simp only [List.flatten_nil, List.append_nil, List.length_append] at hlen
          simp at hlen
          omega
        | cons a rest =>
          rw [drainPut, decode_parseJob0_short tryParse hb2]
          dsimp only
          have hre : (buf ++ a) ++ rest.flatten = buf ++ (a :: rest).flatten := by
            simp [List.flatten_cons, List.append_assoc]
          obtain ⟨cs, b, a', heq, hjoin⟩ := ih 0 (buf ++ a) rest
            (by rw [hre]; exact hlen) (by rw [hre]; exact hcrlf)
            (by simp only [List.length_cons] at hfuel; omega)
          exact ⟨cs, b, a', heq, by rw [hjoin, hre]⟩
      · cases buf with
        | nil => simp only [List.length_nil] at hb2; omega
        | cons x buf' =>
          cases buf' with
          | nil => simp only [List.length_cons, List.length_nil] at hb2; omega
          | cons y rest =>
            simp only [List.cons_append, List.drop_zero, List.take_succ_cons,
              List.take_zero] at hcrlf
            injection hcrlf with hx h2
            injection h2 with hy _
            subst hx; subst hy
            rw [drainPut, decode_parseJob0_crlf tryParse]
            dsimp only
            exact ⟨[], rest, arrivals, rfl, by simp⟩
    | succ r' =>
      cases buf with
      | nil =>
        cases arrivals with
        | nil =>
          simp at hlen
        | cons a rest =>
          rw [drainPut, decode_parseJobPos_empty tryParse r']
          dsimp only
          have hre : ([] ++ a) ++ rest.flatten = ([] : List Nat) ++ (a :: rest).flatten := by
            simp [List.flatten_cons]
          obtain ⟨cs, b, a', heq, hjoin⟩ := ih (r' + 1) ([] ++ a) rest
            (by rw [hre]; exact hlen) (by rw [hre]; exact hcrlf)
            (by simp only [List.length_cons] at hfuel; omega)
          exact ⟨cs, b, a', heq, by rw [hjoin, hre]⟩
      | cons x xs =>
        have hne : (x :: xs) ≠ ([] : List Nat) := List.cons_ne_nil x xs
        rw [drainPut, decode_parseJobPos_chunk tryParse r' hne]
        dsimp only
        have htle1 : min (r' + 1) (x :: xs).length ≤ r' + 1 := Nat.min_le_left _ _
        have htle2 : min (r' + 1) (x :: xs).length ≤ (x :: xs).length :=
          Nat.min_le_right _ _
        have htpos : 1 ≤ min (r' + 1) (x :: xs).length := by
          simp [Nat.lt_min]
        have hsplit1 : ((x :: xs).drop (min (r' + 1) (x :: xs).length)) ++
            arrivals.flatten =
            ((x :: xs) ++ arrivals.flatten).drop (min (r' + 1) (x :: xs).length) :=
          (List.drop_append_of_le_length htle2).symm
        obtain ⟨cs, b, a', heq, hjoin⟩ := ih
          (r' + 1 - min (r' + 1) (x :: xs).length)
          ((x :: xs).drop (min (r' + 1) (x :: xs).length)) arrivals
          (by
            rw [hsplit1]
            simp only [List.length_drop, List.length_append]
            simp only [List.length_append] at hlen
            omega)
          (by
            rw [hsplit1, List.drop_drop]
            have : min (r' + 1) (x :: xs).length +
                (r' + 1 - min (r' + 1) (x :: xs).length) = r' + 1 := by omega
            rw [this]
            exact hcrlf)
          (by omega)
        refine ⟨(x :: xs).take (min (r' + 1) (x :: xs).length) :: cs, b, a', ?_, ?_⟩
        · rw [heq]; rfl
        · have hteq : r' + 1 = min (r' + 1) (x :: xs).length +
              (r' + 1 - min (r' + 1) (x :: xs).length) := by omega
          rw [List.flatten_cons, hjoin, hsplit1]
          rw [← @List.take_append_of_le_length _ (x :: xs) arrivals.flatten _ htle2]
          rw [← List.take_add]
          rw [← hteq]

/-- Claim C5: in `ParseJob { remaining = r }` with `r > 0` and a non-empty
buffer, one decode call removes exactly `min r buf.length` bytes from the
front of the buffer, emits them as a `PutChunk`, and decreases `remaining`
by that amount; consequently, over any arrival pattern of the input stream,
the concatenation of the `PutChunk` payloads emitted between the put
command and the matching `PutEnd` equals the first `n_bytes` bytes of the
stream that follows the command line. -/
theorem c5_put_chunks (J S T L : Type)
    (tryParse : List Nat → Except (DecoderError J S T L) Command) :
    (∀ (r : Nat) (buf : List Nat), 0 < r → buf ≠ [] →
      decode tryParse (.parseJob r) buf =
        some ⟨.parseJob (r - min r buf.length), buf.drop (min r buf.length),
          .ok (some (.putChunk (buf.take (min r buf.length))))⟩) ∧
    (∀ (n_bytes fuel : Nat) (buf : List Nat) (arrivals : List (List Nat)),
      n_bytes + 2 ≤ (buf ++ arrivals.flatten).length →
      ((buf ++ arrivals.flatten).drop n_bytes).take 2 = [13, 10] →
      arrivals.length + n_bytes + 2 ≤ fuel →
      ∃ cs b a, drainPut tryParse fuel n_bytes buf arrivals = some (cs, b, a) ∧
        cs.flatten = (buf ++ arrivals.flatten).take n_bytes) := by
  constructor
  · intro r buf hr hb
    cases r with
    | zero => omega
    | succ r' => exact decode_parseJobPos_chunk tryParse r' hb
  · intro n_bytes fuel buf arrivals h1 h2 h3
    exact drainPut_spec tryParse fuel n_bytes buf arrivals h1 h2 h3

/-- Witness for C5 at concrete inputs: a single chunk step, and a payload
of 2 bytes split across the arrivals `[121, 13]` and `[10, 65]` whose
chunks concatenate to the first two stream bytes. -/
theorem c5_put_chunks_witness :
    decode trivialParse (.parseJob 3) [120, 121] =
      some ⟨.parseJob (3 - min 3 2), [120, 121].drop (min 3 2),
        .ok (some (.putChunk ([120, 121].take (min 3 2))))⟩ ∧
    ∃ cs b a, drainPut trivialParse 10 2 [120] [[121, 13], [10, 65]] =
      some (cs, b, a) ∧
      cs.flatten = (([120] ++ [[121, 13], [10, 65]].flatten)).take 2 := by
  obtain ⟨h1, h2⟩ := c5_put_chunks Unit Unit Unit Unit trivialParse
  exact ⟨h1 3 [120, 121] (by decide) (by simp),
    h2 2 10 [120] [[121, 13], [10, 65]] (by decide) (by decide) (by decide)⟩

/-! ## Association-list and set lemmas -/

/-- A successful (fresh-key) `mapInsert` grows the list by one entry. -/
theorem mapInsert_fst_none_length {k v : Nat} {l : List (Nat × Nat)}
    (h : (mapInsert k v l).1 = none) :
    ((mapInsert k v l).2).length = l.length + 1 := by
  induction l with
  | nil => rfl
  | cons e rest ih =>
    rw [mapInsert] at h ⊢
    by_cases h1 : k < e.1
    · simp [h1]
    · by_cases h2 : k = e.1
      · simp [h1, h2] at h
      · simp only [h1, h2, if_false] at h ⊢
        simp at h ⊢
        exact ih h

/-- A successful `mapRemove` shrinks the list by one entry. -/
theorem mapRemove_fst_some_length {k : Nat} {l : List (Nat × Nat)} {w : Nat}
    (h : (mapRemove k l).1 = some w) :
    l.length = ((mapRemove k l).2).length + 1 := by
  induction l with
  | nil => simp [mapRemove] at h
  | cons e rest ih =>
    rw [mapRemove] at h ⊢
    by_cases h1 : k = e.1
    · simp [h1]
    · simp only [h1, if_false] at h ⊢
      simp at h ⊢
      exact ih h

/-- A successful (new-element) `setInsert` grows the list by one entry. -/
theorem setInsert_fst_true_length {x : Nat × Nat} {l : List (Nat × Nat)}
    (h : (setInsert x l).1 = true) :
    ((setInsert x l).2).length = l.length + 1 := by
  induction l with
  | nil => rfl
  | cons y rest ih =>
    rw [setInsert] at h ⊢
    by_cases h1 : x = y
    · simp [h1] at h
    · by_cases h2 : x.1 < y.1 ∨ (x.1 = y.1 ∧ x.2 < y.2)
      · simp [h1, h2]
      · simp only [h1, h2, if_false] at h ⊢
        simp at h ⊢
        exact ih h

/-! ## Counter invariant (claim C9) -/

/-- One `TubeState` operation preserves the agreement between the three
`current_jobs_*` counters and the sizes of the corresponding sets. -/
theorem step_counts {s s' : TubeState} {op : TubeOp}
    (h : s.step op = some s')
    (hr : s.stats.current_jobs_ready = s.ready.length)
    (hb : s.stats.current_jobs_buried = s.buried.length)
    (hd : s.stats.current_jobs_delayed = s.delayed.length) :
    s'.stats.current_jobs_ready = s'.ready.length ∧
    s'.stats.current_jobs_buried = s'.buried.length ∧
    s'.stats.current_jobs_delayed = s'.delayed.length := by
  cases op with
  | put_ready j =>
    cases hm : (mapInsert s.ready_sn j s.ready).1 with
    | some w => simp [TubeState.step, TubeState.put_ready, hm] at h
    | none =>
      simp only [TubeState.step, TubeState.put_ready, hm, Option.map_some',
        Option.some.injEq] at h
      subst h
      refine ⟨?_, hb, hd⟩
      simp [mapInsert_fst_none_length hm, hr]
  | put_buried j =>
    cases hm : (mapInsert s.buried_sn j s.buried).1 with
    | some w => simp [TubeState.step, TubeState.put_buried, hm] at h
    | none =>
      simp only [TubeState.step, TubeState.put_buried, hm, Option.map_some',
        Option.some.injEq] at h
      subst h
      refine ⟨hr, ?_, hd⟩
      simp [mapInsert_fst_none_length hm, hb]
  | put_delayed j u =>
    cases hm : (setInsert (u, j) s.delayed).1 with
    | false => simp [TubeState.step, TubeState.put_delayed, hm] at h
    | true =>
      simp only [TubeState.step, TubeState.put_delayed, hm, if_true,
        Option.some.injEq] at h
      subst h
      refine ⟨hr, hb, ?_⟩
      simp [setInsert_fst_true_length hm, hd]
  | take_buried p =>
    cases hm : (mapRemove p s.buried).1 with
    | none => simp [TubeState.step, TubeState.take_buried, hm] at h
    | some w =>
      simp only [TubeState.step, TubeState.take_buried, hm,
        Option.some.injEq] at h
      subst h
      refine ⟨hr, ?_, hd⟩
      have := mapRemove_fst_some_length hm
      simp only []
      omega
  | take_ready p =>
    cases hm : (mapRemove p s.ready).1 with
    | none => simp [TubeState.step, TubeState.take_ready, hm] at h
    | some w =>
      simp only [TubeState.step, TubeState.take_ready, hm,
        Option.some.injEq] at h
      subst h
      refine ⟨?_, hb, hd⟩
      have := mapRemove_fst_some_length hm
      simp only []
      omega

/-- The counter agreement is preserved under any operation sequence. -/
theorem runOps_counts {ops : List TubeOp} :
    ∀ {s s' : TubeState}, runOps s ops = some s' →
    s.stats.current_jobs_ready = s.ready.length →
    s.stats.current_jobs_buried = s.buried.length →
    s.stats.current_jobs_delayed = s.delayed.length →
    s'.stats.current_jobs_ready = s'.ready.length ∧
    s'.stats.current_jobs_buried = s'.buried.length ∧
    s'.stats.current_jobs_delayed = s'.delayed.length := by
  induction ops with
  | nil =>
    intro s s' h hr hb hd
    simp only [runOps, Option.some.injEq] at h
    subst h
    exact ⟨hr, hb, hd⟩
  | cons op rest ih =>
    intro s s' h hr hb hd
    rw [runOps] at h
    cases hstep : s.step op with
    | none => rw [hstep] at h; simp at h
    | some s1 =>
      rw [hstep] at h
      obtain ⟨h1, h2, h3⟩ := step_counts hstep hr hb hd
      exact ih h h1 h2 h3

/-- Claim C9: for every tube state reachable from the empty tube by any
sequence of `put_ready`, `put_buried`, `put_delayed`, `take_ready`,
`take_buried`, the counters `current_jobs_ready`, `current_jobs_buried`
and `current_jobs_delayed` equal the sizes of the `ready`, `buried` and
`delayed` sets. -/
theorem c9_job_counters (ops : List TubeOp) (s : TubeState)
    (h : runOps TubeState.empty ops = some s) :
    s.stats.current_jobs_ready = s.ready.length ∧
    s.stats.current_jobs_buried = s.buried.length ∧
    s.stats.current_jobs_delayed = s.delayed.length :=
  runOps_counts h rfl rfl rfl

/-- Witness for C9: the concrete sequence
`put_ready 1; put_delayed 2 5; put_buried 3; take_ready 0` reaches
`tubeW9`, whose counters match its set sizes. -/
theorem c9_job_counters_witness :
    tubeW9.stats.current_jobs_ready = tubeW9.ready.length ∧
    tubeW9.stats.current_jobs_buried = tubeW9.buried.length ∧
    tubeW9.stats.current_jobs_delayed = tubeW9.delayed.length :=
  c9_job_counters
    [.put_ready 1, .put_delayed 2 5, .put_buried 3, .take_ready 0]
    tubeW9 (by decide)

/-! ## Ready-set ordering (claim C1) -/

/-- Inserting a key larger than every existing key appends at the end. -/
theorem mapInsert_max {k v : Nat} {l : List (Nat × Nat)}
    (h : ∀ e ∈ l, e.1 < k) :
    mapInsert k v l = (none, l ++ [(k, v)]) := by
  induction l with
  | nil => rfl
  | cons e rest ih =>
    have he : e.1 < k := h e (List.mem_cons_self e rest)
    rw [mapInsert]
    rw [if_neg (by omega), if_neg (by omega)]
    rw [ih (fun x hx => h x (List.mem_cons_of_mem e hx))]
    simp

/-- Appending a strictly larger key keeps the keys strictly ascending. -/
theorem chain_append_max {l : List (Nat × Nat)} {k v : Nat}
    (hc : List.Chain' (fun a b : Nat × Nat => a.1 < b.1) l)
    (h : ∀ e ∈ l, e.1 < k) :
    List.Chain' (fun a b : Nat × Nat => a.1 < b.1) (l ++ [(k, v)]) := by
  rw [List.chain'_append]
  refine ⟨hc, List.chain'_singleton _, ?_⟩
  intro x hx y hy
  simp only [List.head?_cons, Option.mem_def, Option.some.injEq] at hy
  subst hy
  exact h x (List.mem_of_mem_getLast? hx)

/-- `mapRemove` yields a sublist of its input. -/
theorem mapRemove_sublist (k : Nat) (l : List (Nat × Nat)) :
    ((mapRemove k l).2).Sublist l := by
  induction l with
  | nil => exact List.Sublist.refl _
  | cons e rest ih =>
    rw [mapRemove]
    by_cases h1 : k = e.1
    · simp only [h1, if_true]
      exact (List.sublist_cons_self e rest)
    · simp only [h1, if_false]
      exact List.Sublist.cons₂ e ih

/-- One `TubeState` operation preserves the ready-set ordering invariant:
the ready positions are strictly ascending in enumeration order and all lie
below `ready_sn`. -/
theorem step_readyOrder {s s' : TubeState} {op : TubeOp}
    (h : s.step op = some s')
    (hc : List.Chain' (fun a b : Nat × Nat => a.1 < b.1) s.ready)
    (hk : ∀ e ∈ s.ready, e.1 < s.ready_sn) :
    List.Chain' (fun a b : Nat × Nat => a.1 < b.1) s'.ready ∧
    ∀ e ∈ s'.ready, e.1 < s'.ready_sn := by
  cases op with
  | put_ready j =>
    have hmax := mapInsert_max (v := j) hk
    simp only [TubeState.step, TubeState.put_ready, hmax, Option.map_some',
      Option.some.injEq] at h
    subst h
    constructor
    · exact chain_append_max hc hk
    · intro e he
      simp only [List.mem_append, List.mem_singleton] at he
      rcases he with he | he
      · have := hk e he; simp; omega
      · subst he; simp
  | put_buried j =>
    cases hm : (mapInsert s.buried_sn j s.buried).1 with
    | some w => simp [TubeState.step, TubeState.put_buried, hm] at h
    | none =>
      simp only [TubeState.step, TubeState.put_buried, hm, Option.map_some',
        Option.some.injEq] at h
      subst h
      exact ⟨hc, hk⟩
  | put_delayed j u =>
    cases hm : (setInsert (u, j) s.delayed).1 with
    | false => simp [TubeState.step, TubeState.put_delayed, hm] at h
    | true =>
      simp only [TubeState.step, TubeState.put_delayed, hm, if_true,
        Option.some.injEq] at h
      subst h
      exact ⟨hc, hk⟩
  | take_buried p =>
    cases hm : (mapRemove p s.buried).1 with
    | none => simp [TubeState.step, TubeState.take_buried, hm] at h
    | some w =>
      simp only [TubeState.step, TubeState.take_buried, hm,
        Option.some.injEq] at h
      subst h
      exact ⟨hc, hk⟩
  | take_ready p =>
    cases hm : (mapRemove p s.ready).1 with
    | none => simp [TubeState.step, TubeState.take_ready, hm] at h
    | some w =>
      simp only [TubeState.step, TubeState.take_ready, hm,
        Option.some.injEq] at h
      subst h
      constructor
      · exact @List.Chain'.sublist _ _ _ _
          ⟨fun a b c h1 h2 => Nat.lt_trans h1 h2⟩ hc
          (mapRemove_sublist p s.ready)
      · intro e he
        exact hk e ((mapRemove_sublist p s.ready).subset he)

/-- The ready-set ordering invariant is preserved under any operation
sequence. -/
theorem runOps_readyOrder {ops : List TubeOp} :
    ∀ {s s' : TubeState}, runOps s ops = some s' →
    List.Chain' (fun a b : Nat × Nat => a.1 < b.1) s.ready →
    (∀ e ∈ s.ready, e.1 < s.ready_sn) →
    List.Chain' (fun a b : Nat × Nat => a.1 < b.1) s'.ready ∧
    ∀ e ∈ s'.ready, e.1 < s'.ready_sn := by
  induction ops with
  | nil =>
    intro s s' h hc hk
    simp only [runOps, Option.some.injEq] at h
    subst h
    exact ⟨hc, hk⟩
  | cons op rest ih =>
    intro s s' h hc hk
    rw [runOps] at h
    cases hstep : s.step op with
    | none => rw [hstep] at h; simp at h
    | some s1 =>
      rw [hstep] at h
      obtain ⟨h1, h2⟩ := step_readyOrder hstep hc hk
      exact ih h h1 h2

/-- Counterexample to claim C1 as stated: from the empty tube,
`put_ready 1; put_ready 2` (with job 1 of priority 10 and job 2 of
priority 5, as recorded in `priCE`) yields a ready set that is not ordered
by `(priority ascending, insertion-sequence ascending)` — `put_ready`
never sees the priority, so the higher-priority-value job 1 enumerates
first. -/
theorem c1_ready_priority_counterexample :
    (runOps TubeState.empty [TubeOp.put_ready 1, TubeOp.put_ready 2]).map
      (readyOrderedByPriSeq priCE) = some false := by decide

/-- Claim C1 as amended: the ready set of every reachable tube state is
ordered by insertion sequence alone — the entries' `ReadyPos` keys are
strictly ascending in enumeration order — and `put_ready` inserts at
position `ready_sn`, the tube's next insertion-sequence counter value,
which exceeds every position already present (priority plays no role). -/
theorem c1_ready_ordering (ops : List TubeOp) (s : TubeState)
    (h : runOps TubeState.empty ops = some s) :
    List.Chain' (fun a b : Nat × Nat => a.1 < b.1) s.ready ∧
    ∀ (job_id rp : Nat) (s' : TubeState),
      s.put_ready job_id = some (rp, s') →
      rp = s.ready_sn ∧ ∀ e ∈ s.ready, e.1 < rp := by
  obtain ⟨hc, hk⟩ := runOps_readyOrder h List.chain'_nil (by simp [TubeState.empty])
  refine ⟨hc, fun job_id rp s' hput => ?_⟩
  have hrp : rp = s.ready_sn := by
    cases hm : (mapInsert s.ready_sn job_id s.ready).1 with
    | some w => simp [TubeState.put_ready, hm] at hput
    | none =>
      simp only [TubeState.put_ready, hm, Option.some.injEq, Prod.mk.injEq] at hput
      exact hput.1.symm
  subst hrp
  exact ⟨rfl, hk⟩

/-- Witness for C1 (amended): after the concrete sequence `put_ready 7`
the invariant holds of the reached tube `tubeW1`. -/
theorem c1_ready_ordering_witness :
    List.Chain' (fun a b : Nat × Nat => a.1 < b.1) tubeW1.ready ∧
    ∀ (job_id rp : Nat) (s' : TubeState),
      tubeW1.put_ready job_id = some (rp, s') →
      rp = tubeW1.ready_sn ∧ ∀ e ∈ tubeW1.ready, e.1 < rp :=
  c1_ready_ordering [.put_ready 7] tubeW1 (by decide)

/-! ## Claim C2: reserve_by_id (code bug) -/

/-- Claim C2 fails on the code: on the concrete server `serverCE`, whose
only job (id 1, state `Ready { pos: 0 }`) sits in tube `t`'s ready set,
`reserve_by_id 1` succeeds and removes the job from the ready set — but the
stored job state is still `Ready { pos: 0 }` afterwards, not `Reserved`
(the source never writes `job.state`).  Consequently a second
`reserve_by_id 1`, which the claim says must return `NOT_FOUND` (`None`),
instead panics: `take_ready` unwraps a `None` because position 0 is no
longer in the ready map. -/
theorem c2_reserve_by_id_no_transition :
    Server.reserve_by_id serverCE 1 = some (some jobCE, serverCE2) ∧
    (alLookup 1 serverCE2.jobs).map (fun e => e.2.state) =
      some (.ready 0) ∧
    Server.reserve_by_id serverCE2 1 = none := by decide

/-! ## Claim C7: OK-with-data responses -/

/-- Claim C7: for every payload that serialises successfully, encoding an
`OkStatsJob`, `OkStats`, `OkStatsTube` or `OkListTubes` response appends
exactly `OK <n>\r\n<yaml>\r\n`, where `<yaml>` is the serialised payload
and `<n>` is the decimal byte length of exactly that serialisation. -/
theorem c7_ok_data_encoding (J S T L : Type)
    (serJ : J → Option (List Nat)) (serS : S → Option (List Nat))
    (serT : T → Option (List Nat)) (serL : L → Option (List Nat))
    (dst : List Nat) :
    (∀ (d : J) (y : List Nat), serJ d = some y →
      encode serJ serS serT serL (.okStatsJob d) dst =
        ⟨dst ++ asciiBytes "OK " ++ natToDecimalBytes y.length ++ crlfBytes
          ++ y ++ crlfBytes, false⟩) ∧
    (∀ (d : S) (y : List Nat), serS d = some y →
      encode serJ serS serT serL (.okStats d) dst =
        ⟨dst ++ asciiBytes "OK " ++ natToDecimalBytes y.length ++ crlfBytes
          ++ y ++ crlfBytes, false⟩) ∧
    (∀ (d : T) (y : List Nat), serT d = some y →
      encode serJ serS serT serL (.okStatsTube d) dst =
        ⟨dst ++ asciiBytes "OK " ++ natToDecimalBytes y.length ++ crlfBytes
          ++ y ++ crlfBytes, false⟩) ∧
    (∀ (d : L) (y : List Nat), serL d = some y →
      encode serJ serS serT serL (.okListTubes d) dst =
        ⟨dst ++ asciiBytes "OK " ++ natToDecimalBytes y.length ++ crlfBytes
          ++ y ++ crlfBytes, false⟩) := by
  refine ⟨fun d y hy => ?_, fun d y hy => ?_, fun d y hy => ?_,
    fun d y hy => ?_⟩ <;>
    simp [encode, put_ok_and_data, hy]

/-- Witness for C7: with serialisers returning the one-byte payload `[97]`
(`"a"`), each of the four responses encodes to `OK 1\r\na\r\n`. -/
theorem c7_ok_data_encoding_witness :
    encode (fun _ : Unit => some [97]) (fun _ : Unit => some [97])
      (fun _ : Unit => some [97]) (fun _ : Unit => some [97])
      (.okStatsJob ()) [] =
      ⟨[] ++ asciiBytes "OK " ++ natToDecimalBytes ([97] : List Nat).length
        ++ crlfBytes ++ [97] ++ crlfBytes, false⟩ ∧
    encode (fun _ : Unit => some [97]) (fun _ : Unit => some [97])
      (fun _ : Unit => some [97]) (fun _ : Unit => some [97])
      (.okStats ()) [] =
      ⟨[] ++ asciiBytes "OK " ++ natToDecimalBytes ([97] : List Nat).length
        ++ crlfBytes ++ [97] ++ crlfBytes, false⟩ ∧
    encode (fun _ : Unit => some [97]) (fun _ : Unit => some [97])
      (fun _ : Unit => some [97]) (fun _ : Unit => some [97])
      (.okStatsTube ()) [] =
      ⟨[] ++ asciiBytes "OK " ++ natToDecimalBytes ([97] : List Nat).length
        ++ crlfBytes ++ [97] ++ crlfBytes, false⟩ ∧
    encode (fun _ : Unit => some [97]) (fun _ : Unit => some [97])
      (fun _ : Unit => some [97]) (fun _ : Unit => some [97])
      (.okListTubes ()) [] =
      ⟨[] ++ asciiBytes "OK " ++ natToDecimalBytes ([97] : List Nat).length
        ++ crlfBytes ++ [97] ++ crlfBytes, false⟩ := by
  obtain ⟨h1, h2, h3, h4⟩ := c7_ok_data_encoding Unit Unit Unit Unit
    (fun _ => some [97]) (fun _ => some [97]) (fun _ => some [97])
    (fun _ => some [97]) []
  exact ⟨h1 () [97] rfl, h2 () [97] rfl, h3 () [97] rfl, h4 () [97] rfl⟩

/-! ## Claim C8: JobState stats serialisation -/

/-- Claim C8: the stats serialisation of a `JobState` is exactly one of the
four lowercase strings, and the string matches the constructor. -/
theorem c8_job_state_serialization :
    (∀ p, JobState.serializeStr (.ready p) = "ready") ∧
    (∀ u, JobState.serializeStr (.delayed u) = "delayed") ∧
    (∀ d, JobState.serializeStr (.reserved d) = "reserved") ∧
    (∀ p, JobState.serializeStr (.buried p) = "buried") ∧
    (∀ st : JobState, JobState.serializeStr st = "ready" ∨
      JobState.serializeStr st = "delayed" ∨
      JobState.serializeStr st = "reserved" ∨
      JobState.serializeStr st = "buried") := by
  refine ⟨fun p => rfl, fun u => rfl, fun d => rfl, fun p => rfl,
    fun st => ?_⟩
  cases st with
  | ready p => exact Or.inl rfl
  | delayed u => exact Or.inr (Or.inl rfl)
  | reserved d => exact Or.inr (Or.inr (Or.inl rfl))
  | buried p => exact Or.inr (Or.inr (Or.inr rfl))
